import Mathlib

/-!
Verification of the coordinate/layout engine and interaction state machine of
the nonograms-py repository.

The Python source is embedded shallowly over `Int`:
* Python's `//` (floor division) is `Int.fdiv`;
* Python's `int(x / y)` on integer operands (true division then truncation
  toward zero) is `Int.tdiv`;
* Python's `%` with a positive divisor is `Int.emod` (Lean's `%` on `Int`);
* `pygame.Rect` stores integer x, y, w, h; its `centerx` is `x + w / 2` with
  C truncating division, embedded as `Int.tdiv`.

All claim scenarios feed integer pixel coordinates and integer sizes to these
functions, so the integer embedding is exact.

The module `src.constants` is referenced by the source but is not part of the
source tree; the screen dimensions and margins it provides enter the embedded
functions as explicit parameters (`usable_width`, `usable_height`,
`screen_half_width`, `screen_half_height`).
-/

namespace NonogramsPy

/-- Integer rectangle mirroring `pygame.Rect` (x, y, width, height). -/
structure Rect where
  x : Int
  y : Int
  w : Int
  h : Int
  deriving Repr, DecidableEq

/-- pygame's `Rect.centerx`: `x + w / 2` with C truncating division. -/
def Rect.centerx (r : Rect) : Int := r.x + Int.tdiv r.w 2

/-- pygame's `Rect.centery`: `y + h / 2` with C truncating division. -/
def Rect.centery (r : Rect) : Int := r.y + Int.tdiv r.h 2

/-- Membership of an integer point in a `Rect`, viewing the rect as the
half-open pixel region `[x, x+w) ×ℤ [y, y+h)`. -/
def Rect.containsPt (r : Rect) (px py : Int) : Prop :=
  r.x ≤ px ∧ px < r.x + r.w ∧ r.y ≤ py ∧ py < r.y + r.h

instance (r : Rect) (px py : Int) : Decidable (r.containsPt px py) := by
  unfold Rect.containsPt; exact inferInstance

/-- Embeds `src/utils/render_utils.py::get_cell_rect` (lines 160-199).
`offset` is the optional `(offset_x, offset_y, offset_w, offset_h)` tuple
(the `None` case of the source is `(0, 0, 0, 0)`). -/
def get_cell_rect (row col cell_width cell_height bdr sep_bdr : Int)
    (offset : Int × Int × Int × Int) : Rect :=
  let x := col * cell_width + col * bdr + (Int.fdiv col 5) * (sep_bdr - bdr)
  let y := row * cell_height + row * bdr + (Int.fdiv row 5) * (sep_bdr - bdr)
  { x := x + offset.1
    y := y + offset.2.1
    w := cell_width + offset.2.2.1
    h := cell_height + offset.2.2.2 }

/-- Embeds `src/utils/render_utils.py::screen_to_board_coords` (lines 202-229),
returning `(row_idx, col_idx)`.  Note the two `mod` computations of the source
are parenthesised differently: `mod_x` multiplies the whole difference by the
sign factor while `mod_y` multiplies only the group term. -/
def screen_to_board_coords (screen_x screen_y : Int) (board_rect : Rect)
    (cell_size cell_bdr sep_bdr : Int) : Int × Int :=
  let board_x := screen_x - board_rect.x
  let board_y := screen_y - board_rect.y
  let sep_grp_width := (cell_size + cell_bdr) * 5 + (sep_bdr - cell_bdr)
  let sep_grp_idx_x := Int.fdiv board_x sep_grp_width
  let sep_grp_idx_y := Int.fdiv board_y sep_grp_width
  let mod_x := (|board_x| - sep_grp_idx_x * sep_grp_width) *
    (if board_x < 0 then -1 else 1)
  let mod_y := |board_y| - sep_grp_idx_y * sep_grp_width *
    (if board_y < 0 then -1 else 1)
  let cell_idx_x := min 4 (Int.fdiv mod_x (cell_size + cell_bdr))
  let cell_idx_y := min 4 (Int.fdiv mod_y (cell_size + cell_bdr))
  (sep_grp_idx_y * 5 + cell_idx_y, sep_grp_idx_x * 5 + cell_idx_x)

/-- Embeds `src/utils/render_utils.py::calc_optimum_cell_size` (lines 102-157).
The usable screen area (`constants.SCREEN_WIDTH` minus the margins, and
likewise for the height) is passed in as `usable_width` / `usable_height`
because `src.constants` is not part of the source tree.  Python's
`max(2, int(cell_width))` truncates the real quotient toward zero, which on
integer operands is `Int.tdiv`. -/
def calc_optimum_cell_size (board_nrows board_ncols cell_bdr outer_bdr sep_bdr
    top_clues_nrows left_clues_ncols usable_width usable_height : Int) : Int :=
  let total_nrows := board_nrows + top_clues_nrows
  let total_cols := board_ncols + left_clues_ncols
  let board_border_thick_h := (board_ncols - 1) * cell_bdr + outer_bdr * 2 +
    (Int.fdiv (board_ncols - 1) 5) * (sep_bdr - cell_bdr)
  let board_border_thick_v := (board_nrows - 1) * cell_bdr + outer_bdr * 2 +
    (Int.fdiv (board_nrows - 1) 5) * (sep_bdr - cell_bdr)
  let top_clues_border_thick_v := (top_clues_nrows - 1) * cell_bdr + outer_bdr
  let left_clues_border_thick_h := (left_clues_ncols - 1) * cell_bdr + outer_bdr
  let total_border_thick_h := board_border_thick_h + left_clues_border_thick_h
  let total_border_thick_v := board_border_thick_v + top_clues_border_thick_v
  let cell_width := max 2 (Int.tdiv (usable_width - total_border_thick_h) total_cols)
  let cell_height := max 2 (Int.tdiv (usable_height - total_border_thick_v) total_nrows)
  min cell_width cell_height

/-- The optimal-cell-size computation exactly as claim C3 words it: each
panel's border budget is `(N-1)*cellBorder + 2*outerBorder`, the board
additionally gets one `(separatorBorder - cellBorder)` run per complete group
of 5 cells (`N / 5` groups, floor), clue panels get no separator runs; the
result is `max(2, floor(min(candidateWidth, candidateHeight)))`, where the
floor of the real quotient of integers is integer floor division
(`Int.fdiv`). -/
def calc_optimum_cell_size_spec (board_nrows board_ncols cell_bdr outer_bdr sep_bdr
    top_clues_nrows left_clues_ncols usable_width usable_height : Int) : Int :=
  let total_nrows := board_nrows + top_clues_nrows
  let total_cols := board_ncols + left_clues_ncols
  let board_border_thick_h := (board_ncols - 1) * cell_bdr + outer_bdr * 2 +
    (Int.fdiv board_ncols 5) * (sep_bdr - cell_bdr)
  let board_border_thick_v := (board_nrows - 1) * cell_bdr + outer_bdr * 2 +
    (Int.fdiv board_nrows 5) * (sep_bdr - cell_bdr)
  let top_clues_border_thick_v := (top_clues_nrows - 1) * cell_bdr + outer_bdr * 2
  let left_clues_border_thick_h := (left_clues_ncols - 1) * cell_bdr + outer_bdr * 2
  let total_border_thick_h := board_border_thick_h + left_clues_border_thick_h
  let total_border_thick_v := board_border_thick_v + top_clues_border_thick_v
  max 2 (min (Int.fdiv (usable_width - total_border_thick_h) total_cols)
    (Int.fdiv (usable_height - total_border_thick_v) total_nrows))

/-- The reference optimal-cell-size computation of claim C3 amended to match
the source's border accounting: a clue panel contributes
`(N-1)*cellBorder + outerBorder` (its border shared with the board is counted
once, not twice), and the board gets one `(separatorBorder - cellBorder)` run
per interior grid line whose index is a multiple of 5, i.e. `(N-1) / 5` runs
(floor).  The result is still `max(2, floor(min(candidateWidth,
candidateHeight)))` with floor division realising the floor of the real
quotient. -/
def calc_optimum_cell_size_ref (board_nrows board_ncols cell_bdr outer_bdr sep_bdr
    top_clues_nrows left_clues_ncols usable_width usable_height : Int) : Int :=
  let total_nrows := board_nrows + top_clues_nrows
  let total_cols := board_ncols + left_clues_ncols
  let board_border_thick_h := (board_ncols - 1) * cell_bdr + outer_bdr * 2 +
    (Int.fdiv (board_ncols - 1) 5) * (sep_bdr - cell_bdr)
  let board_border_thick_v := (board_nrows - 1) * cell_bdr + outer_bdr * 2 +
    (Int.fdiv (board_nrows - 1) 5) * (sep_bdr - cell_bdr)
  let top_clues_border_thick_v := (top_clues_nrows - 1) * cell_bdr + outer_bdr
  let left_clues_border_thick_h := (left_clues_ncols - 1) * cell_bdr + outer_bdr
  let total_border_thick_h := board_border_thick_h + left_clues_border_thick_h
  let total_border_thick_v := board_border_thick_v + top_clues_border_thick_v
  max 2 (min (Int.fdiv (usable_width - total_border_thick_h) total_cols)
    (Int.fdiv (usable_height - total_border_thick_v) total_nrows))

/-- Embeds `src/utils/render_utils.py::calc_rects` (lines 9-99), returning
`(board_rect, top_clues_rect, left_clues_rect, parent_rect)`.  The positions
of the board and clue rects are relative to the parent rect; the parent rect
is centered on the screen, whose half extents (`constants.SCREEN_HALF_WIDTH`,
`constants.SCREEN_HALF_HEIGHT`) are passed in explicitly.  `pygame.Rect`
truncates `HALF - w / 2` toward zero, embedded as `Int.tdiv (2*HALF - w) 2`. -/
def calc_rects (board_cell_size top_clues_cell_height left_clues_cell_width
    cell_bdr outer_bdr sep_bdr board_nrows board_ncols
    top_clues_nrows left_clues_ncols
    screen_half_width screen_half_height : Int) : Rect × Rect × Rect × Rect :=
  let board_border_thick_h := (board_ncols - 1) * cell_bdr + outer_bdr * 2 +
    (Int.fdiv (board_ncols - 1) 5) * (sep_bdr - cell_bdr)
  let board_border_thick_v := (board_nrows - 1) * cell_bdr + outer_bdr * 2 +
    (Int.fdiv (board_nrows - 1) 5) * (sep_bdr - cell_bdr)
  let top_clues_border_thick_v := (top_clues_nrows - 1) * cell_bdr + outer_bdr * 2
  let left_clues_border_thick_h := (left_clues_ncols - 1) * cell_bdr + outer_bdr * 2
  let total_border_thick_h := board_border_thick_h + left_clues_border_thick_h
  let total_border_thick_v := board_border_thick_v + top_clues_border_thick_v
  let board_cell_size_h := board_ncols * board_cell_size
  let board_cell_size_v := board_nrows * board_cell_size
  let top_clues_cell_size_v := top_clues_nrows * top_clues_cell_height
  let left_clues_cell_size_h := left_clues_ncols * left_clues_cell_width
  let total_cell_size_h := board_cell_size_h + left_clues_cell_size_h
  let total_cell_size_v := board_cell_size_v + top_clues_cell_size_v
  let parent_w := total_cell_size_h + total_border_thick_h - outer_bdr
  let parent_h := total_cell_size_v + total_border_thick_v - outer_bdr
  let parent_x := Int.tdiv (2 * screen_half_width - parent_w) 2
  let parent_y := Int.tdiv (2 * screen_half_height - parent_h) 2
  let parent_rect : Rect := ⟨parent_x, parent_y, parent_w, parent_h⟩
  let board_w := board_border_thick_h + board_cell_size_h
  let board_h := board_border_thick_v + board_cell_size_v
  let board_x := parent_w - board_w
  let board_y := parent_h - board_h
  let board_rect : Rect := ⟨board_x, board_y, board_w, board_h⟩
  let top_clues_rect : Rect :=
    ⟨board_x, 0, board_w, top_clues_border_thick_v + top_clues_cell_size_v⟩
  let left_clues_rect : Rect :=
    ⟨0, board_y, left_clues_border_thick_h + left_clues_cell_size_h, board_h⟩
  (board_rect, top_clues_rect, left_clues_rect, parent_rect)

/-- `Renderer.MINIMUM_CELL_SIZE` from `src/renderer.py` line 30. -/
def MINIMUM_CELL_SIZE : Int := 4

/-- The fields of `Renderer` touched by zooming: `cell_size` and the private
`__cell_size_zoom_amt` accumulator (`src/renderer.py` lines 57-63). -/
structure ZoomState where
  cell_size : Int
  zoom_amt : Int
  deriving Repr, DecidableEq

/-- A puzzle and border configuration as consumed by
`Renderer.initialize_surfaces`: the puzzle dimensions (from `Puzzle`) and the
border constants, plus the usable screen area parameters of
`calc_optimum_cell_size`. -/
structure PuzzleConfig where
  nrows : Int
  ncols : Int
  top_clues_nrows : Int
  left_clues_ncols : Int
  cell_bdr : Int
  outer_bdr : Int
  sep_bdr : Int
  usable_width : Int
  usable_height : Int
  deriving Repr, DecidableEq

/-- Embeds `Renderer.zoom` (`src/renderer.py` lines 354-360): the value is
forced even (Python `value % 2` is `Int.emod` for the positive divisor 2) and
added to the zoom accumulator. -/
def Renderer.zoom (value : Int) (s : ZoomState) : ZoomState :=
  let value := if value % 2 = 0 then value else value - 1
  { s with zoom_amt := s.zoom_amt + value }

/-- Embeds the cell-size computation of `Renderer.initialize_surfaces`
(`src/renderer.py` lines 154-165): recompute the optimal cell size, clamp the
zoom accumulator from below by `MINIMUM_CELL_SIZE - optimum`, apply it, and
force the resulting cell size even by decrementing if odd. -/
def Renderer.initialize_surfaces (cfg : PuzzleConfig) (s : ZoomState) : ZoomState :=
  let optimum := calc_optimum_cell_size cfg.nrows cfg.ncols cfg.cell_bdr
    cfg.outer_bdr cfg.sep_bdr cfg.top_clues_nrows cfg.left_clues_ncols
    cfg.usable_width cfg.usable_height
  let min_zoom_amt := MINIMUM_CELL_SIZE - optimum
  let amt := max min_zoom_amt s.zoom_amt
  let cs := optimum + amt
  let cs := if cs % 2 = 0 then cs else cs - 1
  { cell_size := cs, zoom_amt := amt }

/-- One wheel event followed by the mandatory relayout, as
`src/main.py::handle_mouse_wheel` does: `renderer.zoom(value)` then
`renderer.initialize_surfaces()`. -/
def Renderer.zoom_and_relayout (cfg : PuzzleConfig) (s : ZoomState) (v : Int) : ZoomState :=
  Renderer.initialize_surfaces cfg (Renderer.zoom v s)

/-- A whole sequence of zoom events, each followed by the relayout. -/
def Renderer.zoom_events (cfg : PuzzleConfig) (vs : List Int) (s : ZoomState) : ZoomState :=
  vs.foldl (Renderer.zoom_and_relayout cfg) s

/-- The draft-gesture fields of `Renderer` (`src/renderer.py` lines 74-81).
`draft_start_pt` is the attribute created by `end_draft`'s assignment
`self.draft_start_pt = None`; it appears nowhere else in the class. -/
structure DraftState where
  draft_start_cell : Option (Int × Int)
  draft_end_cell : Option (Int × Int)
  draft_symbol : Char
  is_drafting : Bool
  draft_start_pt : Option (Int × Int)
  deriving Repr, DecidableEq

/-- The draft fields as set by `Renderer.__init__` (`src/renderer.py`
lines 74-81): both cells `None`, symbol `'.'`, not drafting. -/
def DraftState.initial : DraftState :=
  { draft_start_cell := none
    draft_end_cell := none
    draft_symbol := '.'
    is_drafting := false
    draft_start_pt := none }

/-- Embeds `Renderer.start_draft` (`src/renderer.py` lines 362-372). -/
def Renderer.start_draft (row_idx col_idx : Int) (symbol : Char)
    (s : DraftState) : DraftState :=
  { s with
    draft_start_cell := some (row_idx, col_idx)
    draft_end_cell := some (row_idx, col_idx)
    draft_symbol := symbol
    is_drafting := true }

/-- Embeds `Renderer.update_draft` (`src/renderer.py` lines 374-386).  The
source dereferences `self.draft_start_cell` unconditionally (a `None` start
cell would raise in Python); the `none` branch is modelled as a no-op and is
never reached in the verified scenarios, which only update while drafting. -/
def Renderer.update_draft (row_idx col_idx : Int) (s : DraftState) : DraftState :=
  match s.draft_start_cell with
  | none => s
  | some (srow, scol) =>
    let vertical_len := |srow - row_idx|
    let horizontal_len := |scol - col_idx|
    if horizontal_len ≥ vertical_len then
      { s with draft_end_cell := some (srow, col_idx) }
    else
      { s with draft_end_cell := some (row_idx, scol) }

/-- Embeds `Renderer.end_draft` (`src/renderer.py` lines 388-394): it assigns
`None` to the (otherwise unused) attribute `draft_start_pt`, resets
`draft_symbol` to the blank symbol `' '` and clears `is_drafting`; it does
not touch `draft_start_cell` or `draft_end_cell`. -/
def Renderer.end_draft (s : DraftState) : DraftState :=
  { s with
    draft_start_pt := none
    draft_symbol := ' '
    is_drafting := false }

/-- Embeds `Renderer.get_draft_cell_indices` (`src/renderer.py`
lines 269-302): the inclusive min/max run of cells between the draft start
and end cells, along the column if the draft is vertical, else along the row
if horizontal, else empty. -/
def Renderer.get_draft_cell_indices (s : DraftState) : List (Int × Int) :=
  if ¬ s.is_drafting then []
  else
    match s.draft_start_cell, s.draft_end_cell with
    | some (srow, scol), some (erow, ecol) =>
      if scol = ecol then
        (List.range (max srow erow - min srow erow + 1).toNat).map
          (fun i => (min srow erow + i, scol))
      else if srow = erow then
        (List.range (max scol ecol - min scol ecol + 1).toNat).map
          (fun i => (srow, min scol ecol + i))
      else []
    | _, _ => []

/-- The symbol cycle of `src/main.py::handle_mouse_down` (lines 92-98):
blank to filled to crossed to blank.  The source has no branch for any other
symbol (Python would leave `new_symbol` unbound and raise); that case is
`none`. -/
def next_symbol (curr : Char) : Option Char :=
  if curr = ' ' then some '.'
  else if curr = '.' then some 'x'
  else if curr = 'x' then some ' '
  else none

/-- The board-commit loop of `src/main.py::handle_mouse_up` (lines 123-125):
each draft cell's symbol is assigned `renderer.draft_symbol` in order.  The
board is modelled as a total function from (row, col) to its symbol. -/
def commit_cells (board : Int → Int → Char) (cells : List (Int × Int))
    (symbol : Char) : Int → Int → Char :=
  cells.foldl (fun b rc => fun r c => if r = rc.1 ∧ c = rc.2 then symbol else b r c)
    board

/-- The full pointer-down / drag / pointer-up draft scenario of
`src/main.py`: `handle_mouse_down` reads the clicked cell's committed symbol,
advances it one step along the cycle and calls `start_draft`
(lines 88-99); a pointer move calls `update_draft` with the pointer's cell
(lines 147-150); `handle_mouse_up` commits every draft cell and calls
`end_draft` (lines 122-126).  Returns the new board and draft state. -/
def press_drag_release (board : Int → Int → Char) (s : DraftState)
    (start_row start_col ptr_row ptr_col : Int) :
    (Int → Int → Char) × DraftState :=
  match next_symbol (board start_row start_col) with
  | none => (board, s)
  | some sym =>
    let s1 := Renderer.start_draft start_row start_col sym s
    let s2 := Renderer.update_draft ptr_row ptr_col s1
    let board2 := commit_cells board (Renderer.get_draft_cell_indices s2) s2.draft_symbol
    (board2, Renderer.end_draft s2)

/-! ## Helper lemmas -/

/-- Clamping at 2 erases the difference between truncating and flooring
division by a positive divisor: for a nonnegative dividend the two divisions
agree, and for a negative dividend both quotients lie below 2. -/
lemma max2_tdiv_eq_max2_fdiv (a b : Int) (hb : 0 < b) :
    max 2 (Int.tdiv a b) = max 2 (Int.fdiv a b) := by
  rcases le_or_lt 0 a with ha | ha
  · rw [Int.tdiv_eq_ediv ha hb.le, Int.fdiv_eq_ediv a hb.le]
  · have h1 : Int.tdiv a b ≤ 0 := by
      have h := @Int.tdiv_nonneg (-a) b (by omega) hb.le
      rw [Int.neg_tdiv] at h
      omega
    have h2 : Int.fdiv a b ≤ 2 := by
      rw [Int.fdiv_eq_ediv a hb.le]
      have h3 : a / b < 2 := by
        rw [Int.ediv_lt_iff_lt_mul hb]
        omega
      omega
    rw [max_eq_left (by omega), max_eq_left h2]

/-- `max` distributes over `min` on the integers. -/
lemma max_min_distrib_int (a x y : Int) : max a (min x y) = min (max a x) (max a y) := by
  rcases le_total x y with h | h
  · rw [min_eq_left h, min_eq_left (max_le_max le_rfl h)]
  · rw [min_eq_right h, min_eq_right (max_le_max le_rfl h)]

/-- The zoom part of `initialize_surfaces` always produces an even cell size
of at least `MINIMUM_CELL_SIZE`, from any prior state: the computed optimum
is at least 2, the zoom accumulator is clamped from below by
`MINIMUM_CELL_SIZE - optimum`, and the final decrement preserves the bound
because an odd cell size that is at least 4 is at least 5. -/
lemma initialize_surfaces_cell_size_invariant (cfg : PuzzleConfig) (s : ZoomState) :
    (Renderer.initialize_surfaces cfg s).cell_size % 2 = 0 ∧
    MINIMUM_CELL_SIZE ≤ (Renderer.initialize_surfaces cfg s).cell_size := by
  have h2 : 2 ≤ calc_optimum_cell_size cfg.nrows cfg.ncols cfg.cell_bdr cfg.outer_bdr
      cfg.sep_bdr cfg.top_clues_nrows cfg.left_clues_ncols cfg.usable_width
      cfg.usable_height := by
    simp only [calc_optimum_cell_size]
    exact le_min (le_max_left _ _) (le_max_left _ _)
  simp only [Renderer.initialize_surfaces, MINIMUM_CELL_SIZE]
  set opt := calc_optimum_cell_size cfg.nrows cfg.ncols cfg.cell_bdr cfg.outer_bdr
    cfg.sep_bdr cfg.top_clues_nrows cfg.left_clues_ncols cfg.usable_width
    cfg.usable_height with hopt
  have hamt : 4 - opt ≤ max (4 - opt) s.zoom_amt := le_max_left _ _
  set amt := max (4 - opt) s.zoom_amt with hamtdef
  split_ifs with h
  · exact ⟨h, by omega⟩
  · refine ⟨?_, ?_⟩ <;> omega

/-! ## Claim theorems -/

/-- Claim C2 (status: code bug).  Evaluating `screen_to_board_coords` one
pixel left of and one pixel above the board's top-left corner (board-local
coordinates (-1, -1); board rect at the origin, cellSize 4, cellBorder 1,
separatorBorder 2) yields row -10 and column -11, not the (row, col) =
(-1, -1) that true floor semantics — the spec's documented correctness
requirement — would give.  The source's sign-adjusted remainders (`mod_x`,
`mod_y`), which exist precisely to handle negative pointer coordinates, do
not compute the floor-division remainder, and the two axes are even
parenthesised differently. -/
theorem screen_to_board_negative_eval :
    screen_to_board_coords (-1) (-1) ⟨0, 0, 100, 100⟩ 4 1 2 = (-10, -11) ∧
    screen_to_board_coords (-1) (-1) ⟨0, 0, 100, 100⟩ 4 1 2 ≠ (-1, -1) := by
  decide

/-- Claim C3, counterexample.  At board 5×5, cellBorder 1, outerBorder 2,
separatorBorder 2, 4 top-clue rows, 4 left-clue columns and usable area
103×103, the source computes cell size 10 while the claim's reference
definition (clue panels budgeted `2*outerBorder`, one separator run per
complete group of 5 board cells) computes 9. -/
theorem calc_optimum_cell_size_spec_cex :
    calc_optimum_cell_size 5 5 1 2 2 4 4 103 103 = 10 ∧
    calc_optimum_cell_size_spec 5 5 1 2 2 4 4 103 103 = 9 ∧
    calc_optimum_cell_size 5 5 1 2 2 4 4 103 103 ≠
      calc_optimum_cell_size_spec 5 5 1 2 2 4 4 103 103 := by
  decide

/-- Claim C3 (amended).  `calc_optimum_cell_size` equals the reference
definition in which each clue panel's border budget is
`(N-1)*cellBorder + outerBorder` (one outer border, the one shared with the
board, rather than two) and the board gets one
`(separatorBorder - cellBorder)` run per interior multiple-of-5 grid line
(`(N-1)/5` runs rather than `N/5`); the candidate widths divide by
`boardCols + clueColsLeft` (resp. rows), the result is
`max(2, floor(min(candidateWidth, candidateHeight)))`, and it is never
negative. -/
theorem calc_optimum_cell_size_matches_ref
    (board_nrows board_ncols cell_bdr outer_bdr sep_bdr
      top_clues_nrows left_clues_ncols usable_width usable_height : Int)
    (hc : 0 < board_ncols + left_clues_ncols)
    (hr : 0 < board_nrows + top_clues_nrows) :
    calc_optimum_cell_size board_nrows board_ncols cell_bdr outer_bdr sep_bdr
        top_clues_nrows left_clues_ncols usable_width usable_height =
      calc_optimum_cell_size_ref board_nrows board_ncols cell_bdr outer_bdr sep_bdr
        top_clues_nrows left_clues_ncols usable_width usable_height ∧
    0 ≤ calc_optimum_cell_size board_nrows board_ncols cell_bdr outer_bdr sep_bdr
        top_clues_nrows left_clues_ncols usable_width usable_height := by
  constructor
  · simp only [calc_optimum_cell_size, calc_optimum_cell_size_ref]
    rw [max_min_distrib_int, max2_tdiv_eq_max2_fdiv _ _ hc,
      max2_tdiv_eq_max2_fdiv _ _ hr]
  · simp only [calc_optimum_cell_size]
    exact le_min (le_trans (by norm_num) (le_max_left _ _))
      (le_trans (by norm_num) (le_max_left _ _))

/-- Witness for `calc_optimum_cell_size_matches_ref` at the spec's
end-to-end scenario (15×15 board, 4 clue rows/cols, borders 1/2/2). -/
theorem calc_optimum_cell_size_matches_ref_witness :
    (0 : Int) < 15 + 4 ∧
    (calc_optimum_cell_size 15 15 1 2 2 4 4 1160 760 =
        calc_optimum_cell_size_ref 15 15 1 2 2 4 4 1160 760 ∧
      0 ≤ calc_optimum_cell_size 15 15 1 2 2 4 4 1160 760) :=
  ⟨by norm_num,
    calc_optimum_cell_size_matches_ref 15 15 1 2 2 4 4 1160 760
      (by norm_num) (by norm_num)⟩

/-- Claim C6 (status: confirmed).  From any starting state, after any
nonempty sequence of `zoom(v)` calls with arbitrary integer values, each
followed by the layout recomputation of `initialize_surfaces`, the resulting
cell size is even and at least `MINIMUM_CELL_SIZE` (4).  The hypotheses
restate the `Puzzle` constructor's validation (positive board dimensions,
nonnegative clue-panel dimensions). -/
theorem zoom_cell_size_even_min (cfg : PuzzleConfig) (s : ZoomState) (v : Int)
    (vs : List Int)
    (hnr : 0 < cfg.nrows) (hnc : 0 < cfg.ncols)
    (hT : 0 ≤ cfg.top_clues_nrows) (hL : 0 ≤ cfg.left_clues_ncols) :
    (Renderer.zoom_events cfg (v :: vs) s).cell_size % 2 = 0 ∧
    MINIMUM_CELL_SIZE ≤ (Renderer.zoom_events cfg (v :: vs) s).cell_size := by
  have step : ∀ (t : ZoomState) (w : Int),
      (Renderer.zoom_and_relayout cfg t w).cell_size % 2 = 0 ∧
      MINIMUM_CELL_SIZE ≤ (Renderer.zoom_and_relayout cfg t w).cell_size :=
    fun t w => initialize_surfaces_cell_size_invariant cfg (Renderer.zoom w t)
  have main : ∀ (l : List Int) (t : ZoomState),
      (t.cell_size % 2 = 0 ∧ MINIMUM_CELL_SIZE ≤ t.cell_size) →
      (Renderer.zoom_events cfg l t).cell_size % 2 = 0 ∧
      MINIMUM_CELL_SIZE ≤ (Renderer.zoom_events cfg l t).cell_size := by
    intro l
    induction l with
    | nil => intro t h; exact h
    | cons a l ih =>
      intro t h
      simp only [Renderer.zoom_events, List.foldl] at ih ⊢
      exact ih _ (step t a)
  simp only [Renderer.zoom_events, List.foldl] at main ⊢
  exact main vs _ (step s v)

/-- Witness for `zoom_cell_size_even_min`: a 15×15 puzzle with 4×4 clue
panels, borders 1/2/2, usable area 1160×760, one zoom event of +2. -/
theorem zoom_cell_size_even_min_witness :
    (0 : Int) < (⟨15, 15, 4, 4, 1, 2, 2, 1160, 760⟩ : PuzzleConfig).nrows ∧
    ((Renderer.zoom_events ⟨15, 15, 4, 4, 1, 2, 2, 1160, 760⟩
        (2 :: []) ⟨0, 0⟩).cell_size % 2 = 0 ∧
      MINIMUM_CELL_SIZE ≤ (Renderer.zoom_events ⟨15, 15, 4, 4, 1, 2, 2, 1160, 760⟩
        (2 :: []) ⟨0, 0⟩).cell_size) :=
  ⟨by decide,
    zoom_cell_size_even_min ⟨15, 15, 4, 4, 1, 2, 2, 1160, 760⟩ ⟨0, 0⟩ 2 []
      (by decide) (by decide) (by decide) (by decide)⟩

/-- Claim C8 (status: code bug).  After a draft started at (3, 3), dragged
to (3, 6) and ended by `end_draft`, the symbol is reset to blank and
`is_drafting` is false, but the two draft endpoints are NOT cleared: the
source's `end_draft` assigns `None` to the otherwise-unused attribute
`draft_start_pt` instead of clearing `draft_start_cell` and
`draft_end_cell`. -/
theorem end_draft_state_eval :
    (Renderer.end_draft (Renderer.update_draft 3 6
        (Renderer.start_draft 3 3 '.' DraftState.initial))).draft_start_cell =
      some (3, 3) ∧
    (Renderer.end_draft (Renderer.update_draft 3 6
        (Renderer.start_draft 3 3 '.' DraftState.initial))).draft_end_cell =
      some (3, 6) ∧
    (Renderer.end_draft (Renderer.update_draft 3 6
        (Renderer.start_draft 3 3 '.' DraftState.initial))).draft_symbol = ' ' ∧
    (Renderer.end_draft (Renderer.update_draft 3 6
        (Renderer.start_draft 3 3 '.' DraftState.initial))).is_drafting = false := by
  decide

/-- Claim C9 (status: confirmed).  `update_draft` projects the pointer cell
onto the dominant axis: the end cell becomes `(startRow, pointerCol)` when
the horizontal span is at least the vertical span (ties lock horizontal) and
`(pointerRow, startCol)` otherwise; hence the end cell always shares a row
or a column with the start cell, and a draft started at (5, 5) updated with
pointer cell (7, 7) ends at (5, 7). -/
theorem update_draft_dominant_axis (srow scol row col : Int) (s : DraftState)
    (hs : s.draft_start_cell = some (srow, scol)) :
    ((Renderer.update_draft row col s).draft_end_cell =
      if |scol - col| ≥ |srow - row| then some (srow, col) else some (row, scol)) ∧
    ((Renderer.update_draft row col s).draft_end_cell = some (srow, col) ∨
      (Renderer.update_draft row col s).draft_end_cell = some (row, scol)) ∧
    (Renderer.update_draft 7 7
        (Renderer.start_draft 5 5 '.' DraftState.initial)).draft_end_cell =
      some (5, 7) := by
  refine ⟨?_, ?_, by decide⟩ <;>
    · simp only [Renderer.update_draft, hs]
      split_ifs <;> simp

/-- Witness for `update_draft_dominant_axis`: a draft started at (5, 5)
updated with pointer cell (7, 6). -/
theorem update_draft_dominant_axis_witness :
    (Renderer.start_draft 5 5 '.' DraftState.initial).draft_start_cell =
      some (5, 5) ∧
    (((Renderer.update_draft 7 6
        (Renderer.start_draft 5 5 '.' DraftState.initial)).draft_end_cell =
      if |(5 : Int) - 6| ≥ |(5 : Int) - 7| then some (5, 6) else some (7, 5)) ∧
    ((Renderer.update_draft 7 6
        (Renderer.start_draft 5 5 '.' DraftState.initial)).draft_end_cell =
        some (5, 6) ∨
      (Renderer.update_draft 7 6
        (Renderer.start_draft 5 5 '.' DraftState.initial)).draft_end_cell =
        some (7, 5)) ∧
    (Renderer.update_draft 7 7
        (Renderer.start_draft 5 5 '.' DraftState.initial)).draft_end_cell =
      some (5, 7)) :=
  ⟨by decide, update_draft_dominant_axis 5 5 7 6 _ (by decide)⟩

/-- Horizontal-axis core of the round-trip property: for a cell column
`v ≥ 0`, the board-local x coordinate of the cell's center decomposes as
`(v / 5) * groupWidth + (v % 5) * (cellSize + cellBorder) + cellSize / 2`,
so the group index, the sign factor, the remainder and the within-group index
recover exactly `v`.  The expression is the column component produced by
`screen_to_board_coords` (using the source's `mod_x` parenthesisation). -/
lemma axis_round_trip_x (cs cb sb v : Int) (hcs1 : 1 ≤ cs) (hcb : 0 ≤ cb)
    (hsb : cb ≤ sb) (hv : 0 ≤ v) :
    Int.fdiv (v * cs + v * cb + Int.fdiv v 5 * (sb - cb) + Int.tdiv cs 2)
        ((cs + cb) * 5 + (sb - cb)) * 5 +
      min 4 (Int.fdiv
        ((|v * cs + v * cb + Int.fdiv v 5 * (sb - cb) + Int.tdiv cs 2| -
          Int.fdiv (v * cs + v * cb + Int.fdiv v 5 * (sb - cb) + Int.tdiv cs 2)
            ((cs + cb) * 5 + (sb - cb)) * ((cs + cb) * 5 + (sb - cb))) *
          (if v * cs + v * cb + Int.fdiv v 5 * (sb - cb) + Int.tdiv cs 2 < 0
            then -1 else 1))
        (cs + cb)) = v := by
  have h5 : Int.fdiv v 5 = v / 5 := Int.fdiv_eq_ediv v (by norm_num)
  have hq0 : 0 ≤ v / 5 := Int.ediv_nonneg hv (by norm_num)
  have hr0 : 0 ≤ v % 5 := Int.emod_nonneg v (by norm_num)
  have hr5 : v % 5 < 5 := Int.emod_lt_of_pos v (by norm_num)
  have hqr : 5 * (v / 5) + v % 5 = v := Int.ediv_add_emod v 5
  have hc20 : 0 ≤ Int.tdiv cs 2 := Int.tdiv_nonneg (by omega) (by norm_num)
  have hc2cs : Int.tdiv cs 2 < cs + cb := by
    have h1 : Int.tdiv cs 2 = cs / 2 := Int.tdiv_eq_ediv (by omega) (by norm_num)
    have h2 : cs / 2 < cs := by
      rw [Int.ediv_lt_iff_lt_mul (by norm_num : (0 : Int) < 2)]
      omega
    omega
  rw [h5]
  set W := (cs + cb) * 5 + (sb - cb) with hWdef
  have hWpos : 0 < W := by omega
  set c2 := Int.tdiv cs 2 with hc2def
  set q := v / 5 with hqdef
  set r := v % 5 with hrdef
  have hbx : v * cs + v * cb + q * (sb - cb) + c2 = q * W + (r * (cs + cb) + c2) := by
    rw [hWdef, ← hqr]
    ring
  rw [hbx]
  set A := r * (cs + cb) + c2 with hAdef
  have hrc : 0 ≤ r * (cs + cb) := mul_nonneg hr0 (by omega)
  have hrc4 : r * (cs + cb) ≤ 4 * (cs + cb) :=
    mul_le_mul_of_nonneg_right (by omega) (by omega)
  have hA0 : 0 ≤ A := by omega
  have hAW : A < W := by omega
  have hfd : Int.fdiv (q * W + A) W = q := by
    rw [Int.fdiv_eq_ediv _ (by omega : (0 : Int) ≤ W), add_comm (q * W) A,
      Int.add_mul_ediv_right A q (by omega : W ≠ 0),
      Int.ediv_eq_zero_of_lt hA0 hAW]
    ring
  rw [hfd]
  have hqW : 0 ≤ q * W := mul_nonneg hq0 (by omega)
  have hbx0 : 0 ≤ q * W + A := by omega
  rw [if_neg (not_lt.mpr hbx0), abs_of_nonneg hbx0]
  rw [show (q * W + A - q * W) * 1 = A from by ring]
  have hcell : Int.fdiv A (cs + cb) = r := by
    rw [hAdef, Int.fdiv_eq_ediv _ (by omega : (0 : Int) ≤ cs + cb),
      add_comm (r * (cs + cb)) c2,
      Int.add_mul_ediv_right c2 r (by omega : cs + cb ≠ 0),
      Int.ediv_eq_zero_of_lt hc20 hc2cs]
    ring
  rw [hcell, min_eq_right (by omega : r ≤ 4)]
  omega

/-- Vertical-axis core of the round-trip property, identical to
`axis_round_trip_x` except that it uses the source's `mod_y`
parenthesisation (the sign factor multiplies only the group term).  For a
nonnegative board-local coordinate the two remainders coincide. -/
lemma axis_round_trip_y (cs cb sb v : Int) (hcs1 : 1 ≤ cs) (hcb : 0 ≤ cb)
    (hsb : cb ≤ sb) (hv : 0 ≤ v) :
    Int.fdiv (v * cs + v * cb + Int.fdiv v 5 * (sb - cb) + Int.tdiv cs 2)
        ((cs + cb) * 5 + (sb - cb)) * 5 +
      min 4 (Int.fdiv
        (|v * cs + v * cb + Int.fdiv v 5 * (sb - cb) + Int.tdiv cs 2| -
          Int.fdiv (v * cs + v * cb + Int.fdiv v 5 * (sb - cb) + Int.tdiv cs 2)
            ((cs + cb) * 5 + (sb - cb)) * ((cs + cb) * 5 + (sb - cb)) *
          (if v * cs + v * cb + Int.fdiv v 5 * (sb - cb) + Int.tdiv cs 2 < 0
            then -1 else 1))
        (cs + cb)) = v := by
  have h5 : Int.fdiv v 5 = v / 5 := Int.fdiv_eq_ediv v (by norm_num)
  have hq0 : 0 ≤ v / 5 := Int.ediv_nonneg hv (by norm_num)
  have hr0 : 0 ≤ v % 5 := Int.emod_nonneg v (by norm_num)
  have hr5 : v % 5 < 5 := Int.emod_lt_of_pos v (by norm_num)
  have hqr : 5 * (v / 5) + v % 5 = v := Int.ediv_add_emod v 5
  have hc20 : 0 ≤ Int.tdiv cs 2 := Int.tdiv_nonneg (by omega) (by norm_num)
  have hc2cs : Int.tdiv cs 2 < cs + cb := by
    have h1 : Int.tdiv cs 2 = cs / 2 := Int.tdiv_eq_ediv (by omega) (by norm_num)
    have h2 : cs / 2 < cs := by
      rw [Int.ediv_lt_iff_lt_mul (by norm_num : (0 : Int) < 2)]
      omega
    omega
  rw [h5]
  set W := (cs + cb) * 5 + (sb - cb) with hWdef
  have hWpos : 0 < W := by omega
  set c2 := Int.tdiv cs 2 with hc2def
  set q := v / 5 with hqdef
  set r := v % 5 with hrdef
  have hbx : v * cs + v * cb + q * (sb - cb) + c2 = q * W + (r * (cs + cb) + c2) := by
    rw [hWdef, ← hqr]
    ring
  rw [hbx]
  set A := r * (cs + cb) + c2 with hAdef
  have hrc : 0 ≤ r * (cs + cb) := mul_nonneg hr0 (by omega)
  have hrc4 : r * (cs + cb) ≤ 4 * (cs + cb) :=
    mul_le_mul_of_nonneg_right (by omega) (by omega)
  have hA0 : 0 ≤ A := by omega
  have hAW : A < W := by omega
  have hfd : Int.fdiv (q * W + A) W = q := by
    rw [Int.fdiv_eq_ediv _ (by omega : (0 : Int) ≤ W), add_comm (q * W) A,
      Int.add_mul_ediv_right A q (by omega : W ≠ 0),
      Int.ediv_eq_zero_of_lt hA0 hAW]
    ring
  rw [hfd]
  have hqW : 0 ≤ q * W := mul_nonneg hq0 (by omega)
  have hbx0 : 0 ≤ q * W + A := by omega
  rw [if_neg (not_lt.mpr hbx0), abs_of_nonneg hbx0]
  rw [show q * W + A - q * W * 1 = A from by ring]
  have hcell : Int.fdiv A (cs + cb) = r := by
    rw [hAdef, Int.fdiv_eq_ediv _ (by omega : (0 : Int) ≤ cs + cb),
      add_comm (r * (cs + cb)) c2,
      Int.add_mul_ediv_right c2 r (by omega : cs + cb ≠ 0),
      Int.ediv_eq_zero_of_lt hc20 hc2cs]
    ring
  rw [hcell, min_eq_right (by omega : r ≤ 4)]
  omega

/-- Claim C1 (status: confirmed).  For every grid and every in-bounds cell
index, applying `screen_to_board_coords` to the center of the rectangle
returned by `get_cell_rect` — both with the same cellSize, cellBorder and
separatorBorder, the outer-border offset `(ob, ob, 0, 0)` applied to the
cell rect and the same offset `ob` as the board rect's origin (the board
rect with the outer border stripped, as `Renderer.screen_coord_to_cell_idx`
arranges) — returns exactly `(row, col)`, for every cellSize in
{4, 6, 20, 41} and every border configuration with
`separatorBorder ≥ cellBorder ≥ 0`. -/
theorem screen_to_board_round_trip
    (row col cs cb sb ob nrows ncols bw bh : Int)
    (hcs : cs = 4 ∨ cs = 6 ∨ cs = 20 ∨ cs = 41)
    (hcb : 0 ≤ cb) (hsb : cb ≤ sb)
    (hrow0 : 0 ≤ row) (hrow1 : row < nrows)
    (hcol0 : 0 ≤ col) (hcol1 : col < ncols) :
    screen_to_board_coords
        (get_cell_rect row col cs cs cb sb (ob, ob, 0, 0)).centerx
        (get_cell_rect row col cs cs cb sb (ob, ob, 0, 0)).centery
        ⟨ob, ob, bw, bh⟩ cs cb sb = (row, col) := by
  have hcs1 : 1 ≤ cs := by rcases hcs with h | h | h | h <;> omega
  simp only [screen_to_board_coords, get_cell_rect, Rect.centerx, Rect.centery,
    add_zero]
  rw [show col * cs + col * cb + Int.fdiv col 5 * (sb - cb) + ob + Int.tdiv cs 2 - ob
      = col * cs + col * cb + Int.fdiv col 5 * (sb - cb) + Int.tdiv cs 2 from by ring]
  rw [show row * cs + row * cb + Int.fdiv row 5 * (sb - cb) + ob + Int.tdiv cs 2 - ob
      = row * cs + row * cb + Int.fdiv row 5 * (sb - cb) + Int.tdiv cs 2 from by ring]
  rw [Prod.mk.injEq]
  exact ⟨axis_round_trip_y cs cb sb row hcs1 hcb hsb hrow0,
    axis_round_trip_x cs cb sb col hcs1 hcb hsb hcol0⟩

/-- Witness for `screen_to_board_round_trip`: cell (2, 7) on a 10×10 grid
with cellSize 4, cellBorder 1, separatorBorder 2, outerBorder 2. -/
theorem screen_to_board_round_trip_witness :
    ((4 : Int) = 4 ∨ (4 : Int) = 6 ∨ (4 : Int) = 20 ∨ (4 : Int) = 41) ∧
    screen_to_board_coords
        (get_cell_rect 2 7 4 4 1 2 (2, 2, 0, 0)).centerx
        (get_cell_rect 2 7 4 4 1 2 (2, 2, 0, 0)).centery
        ⟨2, 2, 100, 100⟩ 4 1 2 = (2, 7) :=
  ⟨Or.inl rfl,
    screen_to_board_round_trip 2 7 4 1 2 2 10 10 100 100 (Or.inl rfl)
      (by norm_num) (by norm_num) (by norm_num) (by norm_num)
      (by norm_num) (by norm_num)⟩

/-- Claim C10 (status: confirmed).  For every nonnegative board-local
coordinate that lies inside a separator gap — the widened border after the
last cell of a complete 5-cell group, i.e. in
`[g*groupWidth + 4*(cellSize+cellBorder) + cellSize, (g+1)*groupWidth)` for a
group `g ≥ 0` — `screen_to_board_coords` resolves that axis to within-group
index 4 (overall index `5*g + 4`): the `min 4` clamp absorbs positions inside
the gap and never lets the index overflow into the next group.  The board
rect sits at the origin so the screen coordinates are board-local. -/
theorem separator_gap_clamp (cs cb sb gx gy px py bw bh : Int)
    (hcs : 1 ≤ cs) (hcb : 0 ≤ cb) (hsb : cb ≤ sb)
    (hgx : 0 ≤ gx) (hgy : 0 ≤ gy)
    (hx1 : gx * ((cs + cb) * 5 + (sb - cb)) + (4 * (cs + cb) + cs) ≤ px)
    (hx2 : px < (gx + 1) * ((cs + cb) * 5 + (sb - cb)))
    (hy1 : gy * ((cs + cb) * 5 + (sb - cb)) + (4 * (cs + cb) + cs) ≤ py)
    (hy2 : py < (gy + 1) * ((cs + cb) * 5 + (sb - cb))) :
    screen_to_board_coords px py ⟨0, 0, bw, bh⟩ cs cb sb =
      (gy * 5 + 4, gx * 5 + 4) := by
  simp only [screen_to_board_coords, sub_zero]
  set W := (cs + cb) * 5 + (sb - cb) with hWdef
  have hWpos : 0 < W := by omega
  have hgxW : 0 ≤ gx * W := mul_nonneg hgx (by omega)
  have hgyW : 0 ≤ gy * W := mul_nonneg hgy (by omega)
  have hx2' : px < gx * W + W := by
    have h : (gx + 1) * W = gx * W + W := by ring
    omega
  have hy2' : py < gy * W + W := by
    have h : (gy + 1) * W = gy * W + W := by ring
    omega
  have hpx0 : 0 ≤ px := by omega
  have hpy0 : 0 ≤ py := by omega
  have hfdx : Int.fdiv px W = gx := by
    rw [show px = (px - gx * W) + gx * W from by ring,
      Int.fdiv_eq_ediv _ (by omega : (0 : Int) ≤ W),
      Int.add_mul_ediv_right _ gx (by omega : W ≠ 0),
      Int.ediv_eq_zero_of_lt (by omega) (by omega)]
    ring
  have hfdy : Int.fdiv py W = gy := by
    rw [show py = (py - gy * W) + gy * W from by ring,
      Int.fdiv_eq_ediv _ (by omega : (0 : Int) ≤ W),
      Int.add_mul_ediv_right _ gy (by omega : W ≠ 0),
      Int.ediv_eq_zero_of_lt (by omega) (by omega)]
    ring
  rw [hfdx, hfdy, if_neg (not_lt.mpr hpx0), if_neg (not_lt.mpr hpy0),
    abs_of_nonneg hpx0, abs_of_nonneg hpy0]
  rw [show (px - gx * W) * 1 = px - gx * W from by ring]
  rw [show py - gy * W * 1 = py - gy * W from by ring]
  have hcellx : 4 ≤ Int.fdiv (px - gx * W) (cs + cb) := by
    rw [Int.fdiv_eq_ediv _ (by omega : (0 : Int) ≤ cs + cb),
      Int.le_ediv_iff_mul_le (by omega : (0 : Int) < cs + cb)]
    omega
  have hcelly : 4 ≤ Int.fdiv (py - gy * W) (cs + cb) := by
    rw [Int.fdiv_eq_ediv _ (by omega : (0 : Int) ≤ cs + cb),
      Int.le_ediv_iff_mul_le (by omega : (0 : Int) < cs + cb)]
    omega
  rw [min_eq_left hcellx, min_eq_left hcelly]

/-- Witness for `separator_gap_clamp`: cellSize 4, cellBorder 1,
separatorBorder 2 (group width 26), board-local point (24, 25) inside the
first separator gap `[24, 26)` on both axes. -/
theorem separator_gap_clamp_witness :
    ((0 : Int) * ((4 + 1) * 5 + (2 - 1)) + (4 * (4 + 1) + 4) ≤ 24 ∧
      (24 : Int) < (0 + 1) * ((4 + 1) * 5 + (2 - 1))) ∧
    screen_to_board_coords 24 25 ⟨0, 0, 100, 100⟩ 4 1 2 =
      (0 * 5 + 4, 0 * 5 + 4) :=
  ⟨⟨by norm_num, by norm_num⟩,
    separator_gap_clamp 4 1 2 0 0 24 25 100 100 (by norm_num) (by norm_num)
      (by norm_num) (by norm_num) (by norm_num) (by norm_num) (by norm_num)
      (by norm_num) (by norm_num)⟩

/-- Claim C4, counterexample.  With cellBorder 2 greater than outerBorder 1
(separatorBorder 2, a 1×1 board, zero clue rows and columns, all cell sizes
1), the board rect returned by `calc_rects` starts at x = -1 and so contains
the point (-1, 0) that lies left of the parent rect's extent
`[0, parentWidth) ×ℤ [0, parentHeight)`: the parent rect does not bound the
union of the three panel rects for this border configuration. -/
theorem calc_rects_containment_cex :
    (calc_rects 1 1 1 2 1 2 1 1 0 0 0 0).1.containsPt (-1) 0 ∧
    (calc_rects 1 1 1 2 1 2 1 1 0 0 0 0).1.x < 0 ∧
    (calc_rects 1 1 1 2 1 2 1 1 0 0 0 0).2.2.2.w = 2 := by
  decide

/-- Claim C4 (amended).  Under the additional hypothesis
`cellBorder ≤ outerBorder`, for every `rows, cols ∈ [1, 100]`, clue counts
in `[0, 20]`, positive cell sizes and `separatorBorder ≥ cellBorder ≥ 0`:
the board rect is anchored flush to the parent's bottom-right corner; the
top-clues rect shares the board's x and width and has y = 0; the left-clues
rect shares the board's y and height and has x = 0; each clue panel meets
the board with exactly one shared `outerBorder` of overlap (so there is no
gap and no further overlap); and the board's origin and the clue panels'
extents lie inside `[0, parentWidth] ×ℤ [0, parentHeight]`, so the parent
rect is exactly the bounding box of the union of the three rects (child
rects being parent-relative, the parent's own extent in that frame is
`[0, parentWidth) ×ℤ [0, parentHeight)`). -/
theorem calc_rects_containment
    (cs tch lcw cb ob sb nrows ncols tcr lcc hw hh : Int)
    (hnr : 1 ≤ nrows) (hnr2 : nrows ≤ 100) (hnc : 1 ≤ ncols) (hnc2 : ncols ≤ 100)
    (hT : 0 ≤ tcr) (hT2 : tcr ≤ 20) (hL : 0 ≤ lcc) (hL2 : lcc ≤ 20)
    (hcs : 1 ≤ cs) (htch : 1 ≤ tch) (hlcw : 1 ≤ lcw)
    (hcb : 0 ≤ cb) (hsb : cb ≤ sb) (hob : cb ≤ ob) :
    ∀ b t l p : Rect,
      calc_rects cs tch lcw cb ob sb nrows ncols tcr lcc hw hh = (b, t, l, p) →
      (b.x + b.w = p.w ∧ b.y + b.h = p.h) ∧
      (t.x = b.x ∧ t.w = b.w ∧ t.y = 0) ∧
      (l.y = b.y ∧ l.h = b.h ∧ l.x = 0) ∧
      (t.y + t.h = b.y + ob ∧ l.x + l.w = b.x + ob) ∧
      (0 ≤ b.x ∧ 0 ≤ b.y ∧ 0 < b.w ∧ 0 < b.h ∧
        0 ≤ t.h ∧ t.h ≤ p.h ∧ 0 ≤ l.w ∧ l.w ≤ p.w) := by
  intro b t l p heq
  simp only [calc_rects, Prod.mk.injEq] at heq
  obtain ⟨hb, ht, hl, hp⟩ := heq
  subst hb; subst ht; subst hl; subst hp
  dsimp only
  have hsep_c : 0 ≤ Int.fdiv (ncols - 1) 5 * (sb - cb) :=
    mul_nonneg (Int.fdiv_nonneg (by omega) (by norm_num)) (by omega)
  have hsep_r : 0 ≤ Int.fdiv (nrows - 1) 5 * (sb - cb) :=
    mul_nonneg (Int.fdiv_nonneg (by omega) (by norm_num)) (by omega)
  have hccb : 0 ≤ (ncols - 1) * cb := mul_nonneg (by omega) hcb
  have hrcb : 0 ≤ (nrows - 1) * cb := mul_nonneg (by omega) hcb
  have hncs : 1 * 1 ≤ ncols * cs := mul_le_mul hnc hcs (by norm_num) (by omega)
  have hnrs : 1 * 1 ≤ nrows * cs := mul_le_mul hnr hcs (by norm_num) (by omega)
  have hLx : 0 ≤ lcc * lcw + (lcc - 1) * cb + ob := by
    rcases eq_or_lt_of_le hL with h0 | h1
    · rw [← h0]
      ring_nf
      omega
    · have h2 : 0 ≤ (lcc - 1) * cb := mul_nonneg (by omega) hcb
      have h3 : 0 ≤ lcc * lcw := mul_nonneg (by omega) (by omega)
      omega
  have hTy : 0 ≤ tcr * tch + (tcr - 1) * cb + ob := by
    rcases eq_or_lt_of_le hT with h0 | h1
    · rw [← h0]
      ring_nf
      omega
    · have h2 : 0 ≤ (tcr - 1) * cb := mul_nonneg (by omega) hcb
      have h3 : 0 ≤ tcr * tch := mul_nonneg (by omega) (by omega)
      omega
  refine ⟨⟨by ring, by ring⟩, ⟨rfl, rfl, rfl⟩, ⟨rfl, rfl, rfl⟩,
    ⟨by ring, by ring⟩, by omega, by omega, by omega, by omega,
    by omega, by omega, by omega, by omega⟩

/-- Witness for `calc_rects_containment`: a 15×15 board with 4×4 clue
panels, all cell sizes 20, cellBorder 1, outerBorder 2, separatorBorder 2. -/
theorem calc_rects_containment_witness :
    (1 : Int) ≤ 15 ∧
    (((85 : Int) + 320 = 405 ∧ (85 : Int) + 320 = 405) ∧
      ((85 : Int) = 85 ∧ (320 : Int) = 320 ∧ (0 : Int) = 0) ∧
      ((85 : Int) = 85 ∧ (320 : Int) = 320 ∧ (0 : Int) = 0) ∧
      ((0 : Int) + 87 = 85 + 2 ∧ (0 : Int) + 87 = 85 + 2) ∧
      ((0 : Int) ≤ 85 ∧ (0 : Int) ≤ 85 ∧ (0 : Int) < 320 ∧ (0 : Int) < 320 ∧
        (0 : Int) ≤ 87 ∧ (87 : Int) ≤ 405 ∧ (0 : Int) ≤ 87 ∧ (87 : Int) ≤ 405)) :=
  ⟨by norm_num,
    calc_rects_containment 20 20 20 1 2 2 15 15 4 4 0 0
      (by norm_num) (by norm_num) (by norm_num) (by norm_num) (by norm_num)
      (by norm_num) (by norm_num) (by norm_num) (by norm_num) (by norm_num)
      (by norm_num) (by norm_num) (by norm_num) (by norm_num)
      ⟨85, 85, 320, 320⟩ ⟨85, 0, 320, 87⟩ ⟨0, 85, 87, 320⟩ ⟨-202, -202, 405, 405⟩
      (by decide)⟩

/-- Claim C5, counterexample.  With cellBorder 1, outerBorder 2,
separatorBorder 2, a 1×1 board and zero clue rows/columns, the top-clues
rect returned by `calc_rects` has height 3 (= 2*outerBorder - cellBorder),
not 0, and the board sits at vertical offset 1 (= outerBorder - cellBorder)
within the parent, not 0: a zero-row clue panel does not degrade to a
zero-size panel with zero offset. -/
theorem calc_rects_zero_clues_cex :
    (calc_rects 1 1 1 1 2 2 1 1 0 0 0 0).2.1.h = 3 ∧
    (calc_rects 1 1 1 1 2 2 1 1 0 0 0 0).2.1.h ≠ 0 ∧
    (calc_rects 1 1 1 1 2 2 1 1 0 0 0 0).1.y = 1 ∧
    (calc_rects 1 1 1 1 2 2 1 1 0 0 0 0).1.y ≠ 0 := by
  decide

/-- Claim C5 (amended).  When `calc_rects` is called with 0 top-clue rows,
the top-clues rect has height `2*outerBorder - cellBorder` (zero only when
`cellBorder = 2*outerBorder`) and offsets the board vertically by
`outerBorder - cellBorder` (zero only when `cellBorder = outerBorder`);
symmetrically for 0 left-clue columns; and under the hypothesis
`cellBorder ≤ outerBorder` no returned rectangle has negative width or
height. -/
theorem calc_rects_zero_clues
    (cs tch lcw cb ob sb nrows ncols tcr lcc hw hh : Int)
    (hnr : 1 ≤ nrows) (hnc : 1 ≤ ncols)
    (hT : 0 ≤ tcr) (hL : 0 ≤ lcc)
    (hcs : 1 ≤ cs) (htch : 1 ≤ tch) (hlcw : 1 ≤ lcw)
    (hcb : 0 ≤ cb) (hsb : cb ≤ sb) (hob : cb ≤ ob) :
    ∀ b t l p : Rect,
      calc_rects cs tch lcw cb ob sb nrows ncols tcr lcc hw hh = (b, t, l, p) →
      (tcr = 0 → t.h = 2 * ob - cb ∧ b.y = ob - cb) ∧
      (lcc = 0 → l.w = 2 * ob - cb ∧ b.x = ob - cb) ∧
      (0 ≤ b.w ∧ 0 ≤ b.h ∧ 0 ≤ t.w ∧ 0 ≤ t.h ∧ 0 ≤ l.w ∧ 0 ≤ l.h ∧
        0 ≤ p.w ∧ 0 ≤ p.h) := by
  intro b t l p heq
  simp only [calc_rects, Prod.mk.injEq] at heq
  obtain ⟨hb, ht, hl, hp⟩ := heq
  subst hb; subst ht; subst hl; subst hp
  dsimp only
  have hsep_c : 0 ≤ Int.fdiv (ncols - 1) 5 * (sb - cb) :=
    mul_nonneg (Int.fdiv_nonneg (by omega) (by norm_num)) (by omega)
  have hsep_r : 0 ≤ Int.fdiv (nrows - 1) 5 * (sb - cb) :=
    mul_nonneg (Int.fdiv_nonneg (by omega) (by norm_num)) (by omega)
  have hccb : 0 ≤ (ncols - 1) * cb := mul_nonneg (by omega) hcb
  have hrcb : 0 ≤ (nrows - 1) * cb := mul_nonneg (by omega) hcb
  have hncs : 1 * 1 ≤ ncols * cs := mul_le_mul hnc hcs (by norm_num) (by omega)
  have hnrs : 1 * 1 ≤ nrows * cs := mul_le_mul hnr hcs (by norm_num) (by omega)
  have hLx : 0 ≤ lcc * lcw + (lcc - 1) * cb + ob := by
    rcases eq_or_lt_of_le hL with h0 | h1
    · rw [← h0]
      ring_nf
      omega
    · have h2 : 0 ≤ (lcc - 1) * cb := mul_nonneg (by omega) hcb
      have h3 : 0 ≤ lcc * lcw := mul_nonneg (by omega) (by omega)
      omega
  have hTy : 0 ≤ tcr * tch + (tcr - 1) * cb + ob := by
    rcases eq_or_lt_of_le hT with h0 | h1
    · rw [← h0]
      ring_nf
      omega
    · have h2 : 0 ≤ (tcr - 1) * cb := mul_nonneg (by omega) hcb
      have h3 : 0 ≤ tcr * tch := mul_nonneg (by omega) (by omega)
      omega
  refine ⟨?_, ?_, by omega, by omega, by omega, by omega, by omega, by omega,
    by omega, by omega⟩
  · intro h0
    subst h0
    exact ⟨by ring, by ring⟩
  · intro h0
    subst h0
    exact ⟨by ring, by ring⟩

/-- Witness for `calc_rects_zero_clues`: a 15×15 board, zero clue rows and
columns, all cell sizes 20, cellBorder 1, outerBorder 2, separatorBorder 2. -/
theorem calc_rects_zero_clues_witness :
    (1 : Int) ≤ 15 ∧
    (((0 : Int) = 0 → (3 : Int) = 2 * 2 - 1 ∧ (1 : Int) = 2 - 1) ∧
      ((0 : Int) = 0 → (3 : Int) = 2 * 2 - 1 ∧ (1 : Int) = 2 - 1) ∧
      ((0 : Int) ≤ 320 ∧ (0 : Int) ≤ 320 ∧ (0 : Int) ≤ 320 ∧ (0 : Int) ≤ 3 ∧
        (0 : Int) ≤ 3 ∧ (0 : Int) ≤ 320 ∧ (0 : Int) ≤ 321 ∧ (0 : Int) ≤ 321)) :=
  ⟨by norm_num,
    calc_rects_zero_clues 20 20 20 1 2 2 15 15 0 0 0 0
      (by norm_num) (by norm_num) (by norm_num) (by norm_num) (by norm_num)
      (by norm_num) (by norm_num) (by norm_num) (by norm_num) (by norm_num)
      ⟨1, 1, 320, 320⟩ ⟨1, 0, 320, 3⟩ ⟨0, 1, 3, 320⟩ ⟨-160, -160, 321, 321⟩
      (by decide)⟩

/-- Claim C7 (status: confirmed).  For a draft started on cell (3, 3) whose
committed symbol is blank (so the drafted symbol is the next value in the
cycle, filled), updated so the draft end cell is (3, 6), the pointer-up
commit sets exactly the cells (3, 3), (3, 4), (3, 5), (3, 6) — the inclusive
min/max run along the locked row — to filled and leaves every other cell of
the board unchanged. -/
theorem draft_commit_frame (board : Int → Int → Char) (s : DraftState)
    (hblank : board 3 3 = ' ') (r c : Int) :
    (press_drag_release board s 3 3 3 6).1 r c =
      if r = 3 ∧ 3 ≤ c ∧ c ≤ 6 then '.' else board r c := by
  have hnext : next_symbol (board 3 3) = some '.' := by
    rw [hblank]
    decide
  unfold press_drag_release
  rw [hnext]
  have hcells : Renderer.get_draft_cell_indices
      (Renderer.update_draft 3 6 (Renderer.start_draft 3 3 '.' s)) =
      [(3, 3), (3, 4), (3, 5), (3, 6)] := rfl
  have hsym : (Renderer.update_draft 3 6
      (Renderer.start_draft 3 3 '.' s)).draft_symbol = '.' := rfl
  dsimp only
  rw [hcells, hsym]
  simp only [commit_cells, List.foldl]
  split_ifs <;> first | rfl | (exfalso; omega)

/-- Witness for `draft_commit_frame`: an all-blank board; after the draft
from (3, 3) to (3, 6) is committed, cell (3, 5) is filled. -/
theorem draft_commit_frame_witness :
    (fun _ _ => ' ' : Int → Int → Char) 3 3 = ' ' ∧
    (press_drag_release (fun _ _ => ' ') DraftState.initial 3 3 3 6).1 3 5 =
      if (3 : Int) = 3 ∧ (3 : Int) ≤ 5 ∧ (5 : Int) ≤ 6 then '.'
      else (fun _ _ => ' ' : Int → Int → Char) 3 5 :=
  ⟨rfl, draft_commit_frame (fun _ _ => ' ') DraftState.initial rfl 3 5⟩

end NonogramsPy
